import Mathlib

/-!
Verification of the Lingo-Mail browser extension (background.js, content.js).

The JavaScript source is shallowly embedded: strings handled character by
character become `List Char`, DOM and per-message state becomes explicit
record types, asynchronous handlers become pure functions from their inputs
(including the modelled responses of the remote translation, detection and
summarization services) to the resulting UI state plus the list of remote
calls they issued.  JS numbers that the code uses as integers become `Nat`
or `Int` (the one arithmetic comparison involving a float,
`lastPeriod > maxChunk * 0.3` in background.js, is exact: the IEEE double
product `2000 * 0.3` rounds to exactly `600.0`, so the test is the integer
comparison `600 < lastPeriod`).
-/

namespace LingoMail

/-! ## JavaScript string primitives used by the source -/

/-- The WhiteSpace and LineTerminator code points recognised by the
JavaScript `trimStart` / `trim` operations. -/
def isJsWhitespace (c : Char) : Bool :=
  c == ' ' || c == '\t' || c == '\n' || c == '\r' ||
  c == Char.ofNat 11 || c == Char.ofNat 12 ||
  c == Char.ofNat 160 || c == Char.ofNat 0x1680 ||
  (decide (0x2000 ≤ c.toNat) && decide (c.toNat ≤ 0x200A)) ||
  c == Char.ofNat 0x2028 || c == Char.ofNat 0x2029 ||
  c == Char.ofNat 0x202F || c == Char.ofNat 0x205F ||
  c == Char.ofNat 0x3000 || c == Char.ofNat 0xFEFF

/-- JS `String.prototype.trimStart`. -/
def trimStart (l : List Char) : List Char := l.dropWhile isJsWhitespace

/-- JS `String.prototype.trim` (both ends). -/
def jsTrim (l : List Char) : List Char :=
  ((trimStart l).reverse.dropWhile isJsWhitespace).reverse

/-- JS `s || b` for strings: the empty string is falsy. -/
def jsOr (a b : String) : String := if a = "" then b else a

/-- Index of the last occurrence of the two-character pattern `a b` in `l`
(JS `String.prototype.lastIndexOf` on a two-character needle), `none` when
the pattern does not occur. -/
def lastPairIdx : List Char → Char → Char → Option Nat
  | [], _, _ => none
  | [_], _, _ => none
  | x :: y :: rest, a, b =>
    match lastPairIdx (y :: rest) a b with
    | some i => some (i + 1)
    | none => if x = a ∧ y = b then some 0 else none

/-- JS `lastIndexOf` returns `-1` when the needle is absent. -/
def idxInt : Option Nat → Int
  | none => -1
  | some i => (i : Int)

/-! ## background.js, handleTranslatePdfText (lines 311-334): the chunker

`maxChunk = 2000`; a slice of the first 2000 characters is scanned for the
last occurrence of ". ", ".\n", "! " or "? "; if that index exceeds
`maxChunk * 0.3` (exactly 600), the split lands just after the punctuation,
otherwise at the hard bound 2000; the remainder is `trimStart`-ed. -/

/-- `Math.max` of the four `lastIndexOf` calls on the 2000-character slice. -/
def lastPeriod (slice : List Char) : Int :=
  max (max (idxInt (lastPairIdx slice '.' ' ')) (idxInt (lastPairIdx slice '.' '\n')))
      (max (idxInt (lastPairIdx slice '!' ' ')) (idxInt (lastPairIdx slice '?' ' ')))

/-- The `splitAt` value computed per loop iteration in handleTranslatePdfText. -/
def splitIndex (remaining : List Char) : Nat :=
  if 600 < lastPeriod (remaining.take 2000) then
    (lastPeriod (remaining.take 2000)).toNat + 1
  else 2000

/-- The remainder after one loop iteration:
`remaining.substring(splitAt).trimStart()`. -/
def chunkNext (remaining : List Char) : List Char :=
  trimStart (remaining.drop (splitIndex remaining))

/-- The `while (remaining.length > 0)` loop of handleTranslatePdfText, with
explicit fuel.  Each iteration removes at least one character, so fuel equal
to the length of the input runs the loop to completion (proved below). -/
def chunkSplitF : Nat → List Char → List (List Char)
  | 0, _ => []
  | fuel + 1, remaining =>
    if remaining.length = 0 then []
    else if remaining.length ≤ 2000 then [remaining]
    else remaining.take (splitIndex remaining) :: chunkSplitF fuel (chunkNext remaining)

/-- The chunk list produced by handleTranslatePdfText for a given text. -/
def chunkSplit (s : List Char) : List (List Char) := chunkSplitF s.length s

/-- Chunks interleaved with gap strings: `interleave [c1, c2] [g1] = c1 ++ g1 ++ c2`.
Used to state which characters of the input the chunks cover. -/
def interleave : List (List Char) → List (List Char) → List Char
  | [], _ => []
  | c :: cs, [] => c ++ interleave cs []
  | c :: cs, g :: gs => c ++ g ++ interleave cs gs

/-- `translatedChunks.join("\n")` (background.js line 349), applied to the
chunk contents themselves. -/
def joinNl : List (List Char) → List Char
  | [] => []
  | [c] => c
  | c :: cs => c ++ '\n' :: joinNl cs

/-- A 2012-character text: 1000 copies of a, then ". ", then 1010 copies
of b.  The chunker splits it right after the period and trims the space. -/
def exChunkText : List Char :=
  List.replicate 1000 'a' ++ '.' :: ' ' :: List.replicate 1010 'b'

/-- The first 2000 characters of `exChunkText`. -/
def exSlice : List Char :=
  List.replicate 1000 'a' ++ '.' :: ' ' :: List.replicate 998 'b'

/-! ## content.js, processEmailView (lines 57-81): dedup mark and dispatch

A message body carries the `data-lingo-processed` mark; a rescan skips a
marked node, skips a node with zero `offsetHeight`, and otherwise sets the
mark and then (synchronously, before any await) dispatches the node to
`translateEmailBody`.  The model tracks one watched node across rescans;
its stable identifier is unchanged while the node persists, which is the
situation the claim quantifies over. -/

structure WatchedNode where
  lingoProcessed : Bool
  dispatched : Nat
  deriving DecidableEq

/-- One visit of processEmailView to the node, given its current rendered
height.  A dispatch increments `dispatched` and happens only in the same
step that sets the mark. -/
def processNode (offsetHeight : Nat) (n : WatchedNode) : WatchedNode :=
  if n.lingoProcessed then n
  else if offsetHeight = 0 then n
  else { lingoProcessed := true, dispatched := n.dispatched + 1 }

/-- A sequence of rescans, each seeing the node at some rendered height. -/
def rescans (hs : List Nat) (n : WatchedNode) : WatchedNode :=
  hs.foldl (fun m h => processNode h m) n

/-- A newly rendered, never-visited node. -/
def freshNode : WatchedNode := { lingoProcessed := false, dispatched := 0 }

/-! ## content.js, translateEmailBody (lines 84-139)

The handler early-returns when the message id is already in
`translatedEmails` or the text is shorter than 5 characters; otherwise it
shows a loading bar, calls `detectLanguage`, and on `detected = target`
removes the bar, injects the language badge and then calls
`injectSummarizeButton` - an identifier that is defined nowhere in the
source (content.js defines no such function), so the call raises a
ReferenceError which the surrounding try/catch turns into
`loadingBar.remove()` (a no-op, it is already removed) plus
`showError(emailBody, err.message)`.  On `detected` different from the
target it calls `translateHtml` and on success injects the translation
block, whose header contains the toggle, summarize and read-aloud buttons. -/

inductive BgCall where
  | detect
  | translateHtmlCall
  deriving DecidableEq

structure EmailViewUI where
  loadingVisible : Bool
  badgeShown : Bool
  summarizeShown : Bool
  translationBlockShown : Bool
  errorShown : Option String
  recordStored : Bool
  calls : List BgCall
  deriving DecidableEq

/-- The message of the ReferenceError raised at content.js line 107. -/
def refErrMsg : String := "injectSummarizeButton is not defined"

def translateEmailBodyM (alreadyTranslated : Bool) (textLen : Nat)
    (targetLanguage detectedLocale : String)
    (translateResult : Except String String) : EmailViewUI :=
  if alreadyTranslated then
    { loadingVisible := false, badgeShown := false, summarizeShown := false,
      translationBlockShown := false, errorShown := none, recordStored := true,
      calls := [] }
  else if textLen < 5 then
    { loadingVisible := false, badgeShown := false, summarizeShown := false,
      translationBlockShown := false, errorShown := none, recordStored := false,
      calls := [] }
  else if detectedLocale = targetLanguage then
    { loadingVisible := false, badgeShown := true, summarizeShown := false,
      translationBlockShown := false, errorShown := some refErrMsg,
      recordStored := false, calls := [BgCall.detect] }
  else
    match translateResult with
    | Except.error e =>
      { loadingVisible := false, badgeShown := false, summarizeShown := false,
        translationBlockShown := false, errorShown := some e, recordStored := false,
        calls := [BgCall.detect, BgCall.translateHtmlCall] }
    | Except.ok _ =>
      { loadingVisible := false, badgeShown := false, summarizeShown := true,
        translationBlockShown := true, errorShown := none, recordStored := true,
        calls := [BgCall.detect, BgCall.translateHtmlCall] }

/-! ## content.js, toggleTranslation (lines 207-225) -/

structure TransRecord where
  originalHtml : String
  translatedHtml : String
  detectedLocale : String
  targetLocale : String
  showingTranslation : Bool
  deriving DecidableEq

structure ToggleUI where
  record : Option TransRecord
  blockPresent : Bool
  emailBodyDisplay : String
  translatedDisplay : String
  toggleLabel : String
  deriving DecidableEq

def toggleTranslation (s : ToggleUI) : ToggleUI :=
  match s.record with
  | none => s
  | some data =>
    if s.blockPresent = false then s
    else if data.showingTranslation then
      { s with record := some { data with showingTranslation := false },
               emailBodyDisplay := "", translatedDisplay := "none",
               toggleLabel := "Show Translation" }
    else
      { s with record := some { data with showingTranslation := true },
               emailBodyDisplay := "none", translatedDisplay := "",
               toggleLabel := "Show Original" }

/-- The display fields agree with the stored boolean, as they do after
injectTranslation or after any number of toggles. -/
def consistentUI (s : ToggleUI) : Bool :=
  match s.record with
  | none => true
  | some d =>
    !s.blockPresent ||
      (if d.showingTranslation then
        s.emailBodyDisplay == "none" && s.translatedDisplay == "" &&
          s.toggleLabel == "Show Original"
      else
        s.emailBodyDisplay == "" && s.translatedDisplay == "none" &&
          s.toggleLabel == "Show Translation")

/-- The stored payloads of the Translation Record. -/
def recPayload (s : ToggleUI) : Option (String × String) :=
  s.record.map (fun d => (d.originalHtml, d.translatedHtml))

/-- The state right after injectTranslation (lines 142-204): record stored
with `showingTranslation := true`, original hidden, translation visible. -/
def postInjectUI (r : TransRecord) : ToggleUI :=
  { record := some { r with showingTranslation := true }, blockPresent := true,
    emailBodyDisplay := "none", translatedDisplay := "",
    toggleLabel := "Show Original" }

/-! ## content.js, handleReadAloud / stopReadAloud (lines 346-400)

Buttons are identified by `Nat`; an utterance is tagged with the button that
started it.  `queue` models the speechSynthesis utterance queue
(`speechSynthesis.speaking` is `queue` nonempty), `activeBtn` models the
`currentReadAloudBtn` pointer, `speakingCls` the set of buttons carrying the
speaking class. -/

structure SpeechState where
  queue : List Nat
  activeBtn : Option Nat
  speakingCls : List Nat
  deriving DecidableEq

def stopReadAloud (s : SpeechState) : SpeechState :=
  match s.activeBtn with
  | some a => { queue := [], activeBtn := none, speakingCls := s.speakingCls.erase a }
  | none => { queue := [], activeBtn := none, speakingCls := s.speakingCls }

/-- A click on button `b` whose node has `textLen` readable characters.
If anything is speaking the click only stops it (content.js lines 347-351). -/
def handleReadAloud (b : Nat) (textLen : Nat) (s : SpeechState) : SpeechState :=
  if s.queue ≠ [] then stopReadAloud s
  else if textLen < 5 then s
  else { queue := s.queue ++ [b], activeBtn := some b,
         speakingCls := b :: s.speakingCls }

/-- The `onend` / `onerror` event of the active utterance (lines 377-387):
resets the button captured by the closure and clears the pointer. -/
def utterFinished (s : SpeechState) : SpeechState :=
  match s.queue with
  | [] => s
  | b :: rest => { queue := rest, activeBtn := none,
                   speakingCls := s.speakingCls.erase b }

inductive SpeechEv where
  | click (b : Nat) (textLen : Nat)
  | stopClick
  | finished

def speechStep (e : SpeechEv) (s : SpeechState) : SpeechState :=
  match e with
  | SpeechEv.click b len => handleReadAloud b len s
  | SpeechEv.stopClick => stopReadAloud s
  | SpeechEv.finished => utterFinished s

def initSpeech : SpeechState := { queue := [], activeBtn := none, speakingCls := [] }

def speechRun (evs : List SpeechEv) : SpeechState :=
  evs.foldl (fun s e => speechStep e s) initSpeech

/-- Button 0 speaking: the state after a successful read-aloud start. -/
def speakingStateA : SpeechState :=
  { queue := [0], activeBtn := some 0, speakingCls := [0] }

/-! ## content.js, handleSummarize (lines 256-302) and injectSummaryBlock
(lines 305-343)

When the message id is already in `summarizedEmails` and a summary panel is
in the tree, the handler only toggles the display of that panel and
returns.  Otherwise (text at least 10 characters) it calls the remote
summarizer; on success it stores the record and injectSummaryBlock removes
the first existing panel and inserts a fresh visible one. -/

structure SummaryState where
  record : Option String
  panels : List (String × Bool)
  geminiCalls : Nat
  errorShown : Option String
  deriving DecidableEq

def handleSummarizeM (text : String) (remote : Except String String)
    (s : SummaryState) : SummaryState :=
  match s.record, s.panels with
  | some _, (c, dn) :: rest => { s with panels := (c, !dn) :: rest }
  | _, _ =>
    if text.length < 10 then s
    else
      match remote with
      | Except.error e =>
        { s with geminiCalls := s.geminiCalls + 1, errorShown := some e }
      | Except.ok sum =>
        { s with record := some sum,
                 panels := s.panels.drop 1 ++ [(sum, false)],
                 geminiCalls := s.geminiCalls + 1 }

/-! ## background.js handlers (lines 252-298): credential guards -/

structure SettingsB where
  apiKey : String
  geminiApiKey : String
  targetLanguage : String
  autoTranslate : Bool
  deriving DecidableEq

inductive RemoteCall where
  | lingoI18n
  | lingoRecognize
  | geminiGenerate
  deriving DecidableEq

def lingoKeyMsg : String :=
  "No API key configured. Please set your Lingo.dev API key in the extension settings."

def geminiKeyMsg : String :=
  "No Gemini API key configured. Please set your Gemini API key in the extension settings."

def handleTranslateM (st : SettingsB) (reqTargetLocale : String)
    (remote : Except String String) :
    Except String (String × String) × List RemoteCall :=
  if st.apiKey = "" then (Except.error lingoKeyMsg, [])
  else
    match remote with
    | Except.error e => (Except.error e, [RemoteCall.lingoI18n])
    | Except.ok t => (Except.ok (t, jsOr reqTargetLocale st.targetLanguage),
                      [RemoteCall.lingoI18n])

def handleTranslateHtmlM (st : SettingsB) (reqTargetLocale : String)
    (remote : Except String String) :
    Except String (String × String) × List RemoteCall :=
  if st.apiKey = "" then (Except.error lingoKeyMsg, [])
  else
    match remote with
    | Except.error e => (Except.error e, [RemoteCall.lingoI18n])
    | Except.ok h => (Except.ok (h, jsOr reqTargetLocale st.targetLanguage),
                      [RemoteCall.lingoI18n])

def handleDetectLanguageM (st : SettingsB) (remote : Except String String) :
    Except String String × List RemoteCall :=
  if st.apiKey = "" then (Except.error lingoKeyMsg, [])
  else
    match remote with
    | Except.error e => (Except.error e, [RemoteCall.lingoRecognize])
    | Except.ok loc => (Except.ok (jsOr loc "unknown"), [RemoteCall.lingoRecognize])

def handleSummarizeBg (st : SettingsB) (remote : Except String String) :
    Except String String × List RemoteCall :=
  if st.geminiApiKey = "" then (Except.error geminiKeyMsg, [])
  else
    match remote with
    | Except.error e => (Except.error e, [RemoteCall.geminiGenerate])
    | Except.ok sum => (Except.ok sum, [RemoteCall.geminiGenerate])

/-! ## content.js, handlePdfTranslate (lines 513-573) -/

structure PdfOutcome where
  errorShown : Option String
  modalShown : Bool
  translateRequested : Bool
  deriving DecidableEq

def pdfShortMsg : String :=
  "Could not extract text from PDF. The PDF may contain only images or scanned content."

def pdfNoUrlMsg : String :=
  "Could not find PDF download URL. Try downloading the PDF first, then use the translate button."

def handlePdfTranslateM (downloadUrl : Option String) (fetchError : Option String)
    (extracted : List Char) (translateResult : Except String String) : PdfOutcome :=
  match downloadUrl with
  | none => { errorShown := some pdfNoUrlMsg, modalShown := false,
              translateRequested := false }
  | some _ =>
    match fetchError with
    | some e => { errorShown := some e, modalShown := false,
                  translateRequested := false }
    | none =>
      if extracted = [] ∨ (jsTrim extracted).length < 5 then
        { errorShown := some pdfShortMsg, modalShown := false,
          translateRequested := false }
      else
        match translateResult with
        | Except.error e => { errorShown := some e, modalShown := false,
                              translateRequested := true }
        | Except.ok _ => { errorShown := none, modalShown := true,
                           translateRequested := true }

/-! ## content.js, escapeHtml (lines 844-848)

The function assigns `div.textContent = str` and reads `div.innerHTML`.
The browser serializes the text node by the WHATWG HTML fragment
serialization "escape a string" step in non-attribute mode: ampersand to
the amp entity, U+00A0 to the nbsp entity, less-than to the lt entity,
greater-than to the gt entity. -/

def nbsp : Char := Char.ofNat 160

def serializeTextChar (c : Char) : List Char :=
  if c = '&' then "&amp;".data
  else if c = nbsp then "&nbsp;".data
  else if c = '<' then "&lt;".data
  else if c = '>' then "&gt;".data
  else [c]

/-- escapeHtml as content.js obtains it from the DOM serialization. -/
def escapeHtml (s : List Char) : List Char := (s.map serializeTextChar).flatten

/-- Modelled from the spec wording of the claim: the standard three-entity
HTML escaping (ampersand, less-than, greater-than only), for comparison
with the DOM-serialization behaviour of the source. -/
def specEscapeChar (c : Char) : List Char :=
  if c = '&' then "&amp;".data
  else if c = '<' then "&lt;".data
  else if c = '>' then "&gt;".data
  else [c]

/-- The claim reading of escapeHtml. -/
def specEscapeHtml (s : List Char) : List Char := (s.map specEscapeChar).flatten

/-! ## Theorems -/

theorem rescans_aux (hs : List Nat) :
    ∀ n : WatchedNode, n.dispatched ≤ 1 →
      (n.lingoProcessed = false → n.dispatched = 0) →
      (rescans hs n).dispatched ≤ 1 := by
  induction hs with
  | nil => intro n h1 _; exact h1
  | cons h t ih =>
    intro n h1 h2
    show (rescans t (processNode h n)).dispatched ≤ 1
    by_cases hp : n.lingoProcessed
    · have : processNode h n = n := by simp [processNode, hp]
      rw [this]; exact ih n h1 h2
    · have hb : n.lingoProcessed = false := by simpa using hp
      by_cases hh : h = 0
      · have : processNode h n = n := by simp [processNode, hb, hh]
        rw [this]; exact ih n h1 h2
      · have hstep : processNode h n =
            { lingoProcessed := true, dispatched := n.dispatched + 1 } := by
          simp [processNode, hb, hh]
        rw [hstep]
        have hd0 : n.dispatched = 0 := h2 hb
        exact ih _ (by simp [hd0]) (by simp)

/-- Claim C1: across any sequence of rescans, a watched node is dispatched
to its workflow at most once while its processed mark persists; the mark
only ever goes from unset to set (a marked node is left entirely alone),
and a dispatch happens only in the very step that sets the mark, before any
suspension point. -/
theorem c1_at_most_once_dispatch :
    (∀ hs : List Nat, (rescans hs freshNode).dispatched ≤ 1) ∧
    (∀ (h : Nat) (n : WatchedNode), n.lingoProcessed = true → processNode h n = n) ∧
    (∀ (h : Nat) (n : WatchedNode), (processNode h n).dispatched ≠ n.dispatched →
      n.lingoProcessed = false ∧ (processNode h n).lingoProcessed = true ∧
      (processNode h n).dispatched = n.dispatched + 1) := by
  refine ⟨fun hs => rescans_aux hs freshNode (by simp [freshNode]) (by simp [freshNode]), ?_, ?_⟩
  · intro h n hp; simp [processNode, hp]
  · intro h n hne
    by_cases hp : n.lingoProcessed
    · exact absurd (by simp [processNode, hp]) hne
    · have hb : n.lingoProcessed = false := by simpa using hp
      by_cases hh : h = 0
      · exact absurd (by simp [processNode, hb, hh]) hne
      · refine ⟨hb, ?_, ?_⟩ <;> simp [processNode, hb, hh]

theorem trimStart_length_le (l : List Char) : (trimStart l).length ≤ l.length := by
  unfold trimStart
  induction l with
  | nil => simp
  | cons c t ih =>
    by_cases h : isJsWhitespace c
    · simpa [List.dropWhile, h] using Nat.le_succ_of_le ih
    · simp [List.dropWhile, h]

theorem lastPairIdx_bound (a b : Char) :
    ∀ (l : List Char) (i : Nat), lastPairIdx l a b = some i → i + 2 ≤ l.length := by
  intro l
  induction l with
  | nil => intro i h; simp [lastPairIdx] at h
  | cons x t ih =>
    cases t with
    | nil => intro i h; simp [lastPairIdx] at h
    | cons y rest =>
      intro i h
      rw [lastPairIdx] at h
      cases hrec : lastPairIdx (y :: rest) a b with
      | some j =>
        rw [hrec] at h
        have hij : i = j + 1 := by
          simpa using h.symm
        have := ih j hrec
        simp only [List.length_cons] at *
        omega
      | none =>
        rw [hrec] at h
        by_cases hxy : x = a ∧ y = b
        · rw [if_pos hxy] at h
          have : i = 0 := by simpa using h.symm
          subst this
          simp only [List.length_cons]
          omega
        · rw [if_neg hxy] at h
          exact absurd h (by simp)

theorem idxInt_le (l : List Char) (a b : Char) :
    idxInt (lastPairIdx l a b) = -1 ∨
      idxInt (lastPairIdx l a b) + 2 ≤ (l.length : Int) := by
  cases h : lastPairIdx l a b with
  | none => left; rfl
  | some i =>
    right
    have := lastPairIdx_bound a b l i h
    simp only [idxInt]
    omega

theorem lastPeriod_le (slice : List Char) (hlen : slice.length = 2000) :
    lastPeriod slice ≤ 1998 := by
  have h1 := idxInt_le slice '.' ' '
  have h2 := idxInt_le slice '.' '\n'
  have h3 := idxInt_le slice '!' ' '
  have h4 := idxInt_le slice '?' ' '
  rw [hlen] at h1 h2 h3 h4
  unfold lastPeriod
  refine max_le (max_le ?_ ?_) (max_le ?_ ?_) <;> omega

theorem splitIndex_bounds (r : List Char) (h : 2000 < r.length) :
    602 ≤ splitIndex r ∧ splitIndex r ≤ 2000 := by
  have hsl : (r.take 2000).length = 2000 := by
    simp [List.length_take]
    omega
  have hle := lastPeriod_le (r.take 2000) hsl
  unfold splitIndex
  split
  · rename_i hc
    refine ⟨?_, ?_⟩ <;> omega
  · exact ⟨by omega, le_refl 2000⟩

theorem chunkNext_le (r : List Char) :
    (chunkNext r).length ≤ r.length - splitIndex r := by
  unfold chunkNext
  calc (trimStart (r.drop (splitIndex r))).length
      ≤ (r.drop (splitIndex r)).length := trimStart_length_le _
    _ = r.length - splitIndex r := by simp [List.length_drop]

theorem chunkNext_decrease (r : List Char) (h : 2000 < r.length) :
    (chunkNext r).length + 602 ≤ r.length := by
  have h1 := splitIndex_bounds r h
  have h2 := chunkNext_le r
  omega

theorem chunkSplitF_succ (fuel : Nat) (s : List Char) :
    chunkSplitF (fuel + 1) s =
      if s.length = 0 then []
      else if s.length ≤ 2000 then [s]
      else s.take (splitIndex s) :: chunkSplitF fuel (chunkNext s) := by
  rw [chunkSplitF]

theorem chunkSplitF_step (fuel : Nat) :
    ∀ s : List Char, s.length ≤ fuel →
      chunkSplitF (fuel + 1) s = chunkSplitF fuel s := by
  induction fuel with
  | zero =>
    intro s hs
    have : s = [] := List.eq_nil_of_length_eq_zero (Nat.le_zero.mp hs)
    subst this
    simp [chunkSplitF]
  | succ g ih =>
    intro s hs
    rw [chunkSplitF_succ (g + 1) s, chunkSplitF_succ g s]
    by_cases h0 : s.length = 0
    · simp [h0]
    by_cases h1 : s.length ≤ 2000
    · simp [h0, h1]
    · rw [if_neg h0, if_neg h1, if_neg h0, if_neg h1]
      congr 1
      exact ih (chunkNext s) (by have := chunkNext_decrease s (by omega); omega)

theorem chunkSplitF_add (s : List Char) :
    ∀ d : Nat, chunkSplitF (s.length + d) s = chunkSplit s := by
  intro d
  induction d with
  | zero => rfl
  | succ d ih =>
    have h := chunkSplitF_step (s.length + d) s (Nat.le_add_right _ _)
    exact h.trans ih

theorem chunkSplitF_fuel_irrel (fuel : Nat) (s : List Char) (h : s.length ≤ fuel) :
    chunkSplitF fuel s = chunkSplit s := by
  obtain ⟨d, rfl⟩ := Nat.le.dest h
  exact chunkSplitF_add s d

theorem chunkSplitF_bound (fuel : Nat) :
    ∀ s : List Char, s.length ≤ fuel →
      ∀ c ∈ chunkSplitF fuel s, c.length ≤ 2000 := by
  induction fuel with
  | zero => intro s hs c hc; simp [chunkSplitF] at hc
  | succ g ih =>
    intro s hs c hc
    rw [chunkSplitF_succ g s] at hc
    by_cases h0 : s.length = 0
    · simp [h0] at hc
    by_cases h1 : s.length ≤ 2000
    · rw [if_neg h0, if_pos h1] at hc
      have : c = s := by simpa using hc
      subst this; exact h1
    · rw [if_neg h0, if_neg h1, List.mem_cons] at hc
      rcases hc with rfl | hc
      · have hmin : (s.take (splitIndex s)).length ≤ splitIndex s := by
          simp [List.length_take]
        have := (splitIndex_bounds s (by omega)).2
        omega
      · exact ih (chunkNext s)
          (by have := chunkNext_decrease s (by omega); omega) c hc

theorem interleave_nil (gs : List (List Char)) : interleave [] gs = [] := by
  rw [interleave]

theorem interleave_cons_nil (c : List Char) (cs : List (List Char)) :
    interleave (c :: cs) [] = c ++ interleave cs [] := by
  rw [interleave]

theorem interleave_cons_cons (c g : List Char) (cs gs : List (List Char)) :
    interleave (c :: cs) (g :: gs) = c ++ g ++ interleave cs gs := by
  rw [interleave]

theorem chunkSplitF_cover (fuel : Nat) :
    ∀ s : List Char, s.length ≤ fuel →
      ∃ gaps : List (List Char),
        (∀ g ∈ gaps, ∀ ch ∈ g, isJsWhitespace ch = true) ∧
        interleave (chunkSplitF fuel s) gaps = s := by
  induction fuel with
  | zero =>
    intro s hs
    have : s = [] := List.eq_nil_of_length_eq_zero (Nat.le_zero.mp hs)
    subst this
    exact ⟨[], by simp, by simp [chunkSplitF, interleave]⟩
  | succ g ih =>
    intro s hs
    rw [chunkSplitF_succ g s]
    by_cases h0 : s.length = 0
    · have : s = [] := List.eq_nil_of_length_eq_zero h0
      subst this
      exact ⟨[], by simp, by simp [interleave]⟩
    by_cases h1 : s.length ≤ 2000
    · refine ⟨[], by simp, ?_⟩
      rw [if_neg h0, if_pos h1, interleave_cons_nil, interleave_nil, List.append_nil]
    · obtain ⟨gaps, hws, hcov⟩ :=
        ih (chunkNext s) (by have := chunkNext_decrease s (by omega); omega)
      refine ⟨(s.drop (splitIndex s)).takeWhile isJsWhitespace :: gaps, ?_, ?_⟩
      · intro gp hgp ch hch
        rcases List.mem_cons.mp hgp with rfl | hmem
        · exact List.mem_takeWhile_imp hch
        · exact hws gp hmem ch hch
      · rw [if_neg h0, if_neg h1, interleave_cons_cons, hcov]
        have hnext : chunkNext s = (s.drop (splitIndex s)).dropWhile isJsWhitespace := rfl
        rw [hnext, List.append_assoc, List.takeWhile_append_dropWhile,
          List.take_append_drop]

/-- Claim C2 (amended): every chunk produced by the PDF chunker has at most
2000 characters; a long remainder is split right after the last
sentence-ending punctuation of the 2000-character window when that
punctuation sits past index 600 (30 percent of the bound), and hard-cut at
2000 otherwise; and the original text is exactly the chunks interleaved
with whitespace-only gaps - the leading whitespace of each remainder is
trimmed away, so plain re-concatenation drops exactly that boundary
whitespace and nothing else. -/
theorem c2_chunk_amended (s : List Char) :
    (∀ c ∈ chunkSplit s, c.length ≤ 2000) ∧
    (∃ gaps : List (List Char),
      (∀ g ∈ gaps, ∀ ch ∈ g, isJsWhitespace ch = true) ∧
      interleave (chunkSplit s) gaps = s) ∧
    (2000 < s.length →
      chunkSplit s = s.take (splitIndex s) :: chunkSplit (chunkNext s) ∧
      (600 < lastPeriod (s.take 2000) →
        splitIndex s = (lastPeriod (s.take 2000)).toNat + 1) ∧
      (lastPeriod (s.take 2000) ≤ 600 → splitIndex s = 2000)) := by
  refine ⟨chunkSplitF_bound s.length s le_rfl, chunkSplitF_cover s.length s le_rfl, ?_⟩
  intro hlong
  refine ⟨?_, ?_, ?_⟩
  · have hpos : s.length = (s.length - 1) + 1 := by omega
    calc chunkSplit s = chunkSplitF s.length s := rfl
      _ = chunkSplitF ((s.length - 1) + 1) s := by rw [← hpos]
      _ = s.take (splitIndex s) :: chunkSplitF (s.length - 1) (chunkNext s) := by
          rw [chunkSplitF_succ]
          rw [if_neg (by omega), if_neg (by omega)]
      _ = s.take (splitIndex s) :: chunkSplit (chunkNext s) := by
          rw [chunkSplitF_fuel_irrel (s.length - 1) (chunkNext s)
            (by have := chunkNext_decrease s hlong; omega)]
  · intro hc; simp [splitIndex, hc]
  · intro hc; simp [splitIndex]; omega

theorem lastPairIdx_replicate (c a b : Char) (h : ¬(c = a ∧ c = b)) :
    ∀ n, lastPairIdx (List.replicate n c) a b = none := by
  intro n
  induction n with
  | zero => rfl
  | succ m ih =>
    cases m with
    | zero => rfl
    | succ k =>
      show lastPairIdx (c :: c :: List.replicate k c) a b = none
      rw [lastPairIdx]
      rw [show (c :: List.replicate k c) = List.replicate (k + 1) c from rfl, ih]
      simp [h]

theorem lastPairIdx_replicate_append (c a b : Char) (hc : ¬ c = a) (rest : List Char) :
    ∀ n, lastPairIdx (List.replicate n c ++ rest) a b =
      (lastPairIdx rest a b).map (fun i => n + i) := by
  intro n
  induction n with
  | zero =>
    simp only [List.replicate, List.nil_append]
    cases h : lastPairIdx rest a b <;> simp
  | succ m ih =>
    show lastPairIdx (c :: (List.replicate m c ++ rest)) a b = _
    cases hne : List.replicate m c ++ rest with
    | nil =>
      obtain ⟨h1, h2⟩ := List.append_eq_nil.mp hne
      rw [h2]
      rfl
    | cons y t2 =>
      rw [lastPairIdx, ← hne, ih]
      cases hr : lastPairIdx rest a b with
      | some i =>
        show some (m + i + 1) = some (m + 1 + i)
        congr 1
        omega
      | none =>
        show (if c = a ∧ y = b then some 0 else (none : Option Nat)) = none
        rw [if_neg (fun hcon => hc hcon.1)]

theorem lastPairIdx_exSlice_dot_space : lastPairIdx exSlice '.' ' ' = some 1000 := by
  have htail : lastPairIdx (' ' :: List.replicate 998 'b') '.' ' ' = none := by
    have h := lastPairIdx_replicate_append ' ' '.' ' ' (by decide) (List.replicate 998 'b') 1
    rw [lastPairIdx_replicate 'b' '.' ' ' (by decide) 998] at h
    exact h.trans rfl
  have hmid : lastPairIdx ('.' :: ' ' :: List.replicate 998 'b') '.' ' ' = some 0 := by
    rw [lastPairIdx, htail]
    show (if ('.' = '.' ∧ ' ' = ' ') then some 0 else (none : Option Nat)) = some 0
    rw [if_pos ⟨rfl, rfl⟩]
  have h := lastPairIdx_replicate_append 'a' '.' ' '
    (by decide) ('.' :: ' ' :: List.replicate 998 'b') 1000
  rw [hmid] at h
  exact h.trans rfl

theorem lastPairIdx_exSlice_none (a b : Char) (hsp : ¬ ' ' = a)
    (hb : ¬('b' = a ∧ 'b' = b)) (hdot : ¬('.' = a ∧ ' ' = b)) (hA : ¬ 'a' = a) :
    lastPairIdx exSlice a b = none := by
  have htail : lastPairIdx (' ' :: List.replicate 998 'b') a b = none := by
    have h := lastPairIdx_replicate_append ' ' a b hsp (List.replicate 998 'b') 1
    rw [lastPairIdx_replicate 'b' a b hb 998] at h
    exact h.trans rfl
  have hmid : lastPairIdx ('.' :: ' ' :: List.replicate 998 'b') a b = none := by
    rw [lastPairIdx, htail]
    show (if ('.' = a ∧ ' ' = b) then some 0 else (none : Option Nat)) = none
    rw [if_neg hdot]
  have h := lastPairIdx_replicate_append 'a' a b hA
    ('.' :: ' ' :: List.replicate 998 'b') 1000
  rw [hmid] at h
  exact h.trans rfl

theorem lastPeriod_exSlice : lastPeriod exSlice = 1000 := by
  unfold lastPeriod
  rw [lastPairIdx_exSlice_dot_space,
      lastPairIdx_exSlice_none '.' '\n' (by decide) (by decide) (by decide) (by decide),
      lastPairIdx_exSlice_none '!' ' ' (by decide) (by decide) (by decide) (by decide),
      lastPairIdx_exSlice_none '?' ' ' (by decide) (by decide) (by decide) (by decide)]
  decide

theorem exChunkText_length : exChunkText.length = 2012 := by
  unfold exChunkText
  simp only [List.length_append, List.length_cons, List.length_replicate]

theorem exSlice_length : exSlice.length = 2000 := by
  unfold exSlice
  simp only [List.length_append, List.length_cons, List.length_replicate]

theorem exChunkText_decomp : exChunkText = exSlice ++ List.replicate 12 'b' := by
  unfold exChunkText exSlice
  rw [show (1010 : Nat) = 998 + 12 from rfl, List.replicate_add]
  simp only [List.append_assoc, List.cons_append]

theorem exChunkText_decomp2 :
    exChunkText = (List.replicate 1000 'a' ++ ['.']) ++ ' ' :: List.replicate 1010 'b' := by
  unfold exChunkText
  simp only [List.append_assoc, List.cons_append, List.nil_append]

theorem slice_ex : exChunkText.take 2000 = exSlice := by
  rw [exChunkText_decomp]
  exact List.take_left' exSlice_length

theorem splitIndex_ex : splitIndex exChunkText = 1001 := by
  unfold splitIndex
  rw [slice_ex, lastPeriod_exSlice]
  decide

theorem take1001_ex : exChunkText.take 1001 = List.replicate 1000 'a' ++ ['.'] := by
  rw [exChunkText_decomp2]
  exact List.take_left'
    (by simp only [List.length_append, List.length_cons, List.length_nil,
          List.length_replicate])

theorem chunkNext_ex : chunkNext exChunkText = List.replicate 1010 'b' := by
  unfold chunkNext
  rw [splitIndex_ex, exChunkText_decomp2,
    List.drop_left'
      (by simp only [List.length_append, List.length_cons, List.length_nil,
            List.length_replicate])]
  unfold trimStart
  rw [List.dropWhile_cons, if_pos (by decide)]
  rw [show List.replicate 1010 'b' = 'b' :: List.replicate 1009 'b' from rfl]
  rw [List.dropWhile_cons, if_neg (by decide)]

theorem chunkSplit_repB : chunkSplit (List.replicate 1010 'b') = [List.replicate 1010 'b'] := by
  unfold chunkSplit
  rw [List.length_replicate]
  rw [show (1010 : Nat) = 1009 + 1 from rfl, chunkSplitF_succ]
  rw [if_neg (by rw [List.length_replicate]; decide),
      if_pos (by rw [List.length_replicate]; decide)]

theorem chunkSplit_ex :
    chunkSplit exChunkText = [List.replicate 1000 'a' ++ ['.'], List.replicate 1010 'b'] := by
  unfold chunkSplit
  rw [exChunkText_length, show (2012 : Nat) = 2011 + 1 from rfl, chunkSplitF_succ]
  rw [if_neg (by rw [exChunkText_length]; decide),
      if_neg (by rw [exChunkText_length]; decide)]
  rw [splitIndex_ex, take1001_ex, chunkNext_ex]
  rw [chunkSplitF_fuel_irrel 2011 (List.replicate 1010 'b')
    (by rw [List.length_replicate]; decide)]
  rw [chunkSplit_repB]

theorem joinNl_pair (x y : List Char) : joinNl [x, y] = x ++ '\n' :: y := rfl

theorem c2_chunk_amended_witness :
    2000 < exChunkText.length ∧ splitIndex exChunkText = 1001 := by
  constructor
  · rw [exChunkText_length]; decide
  · have h := ((c2_chunk_amended exChunkText).2.2
      (by rw [exChunkText_length]; decide)).2.1
      (by rw [slice_ex, lastPeriod_exSlice]; decide)
    rw [h, slice_ex, lastPeriod_exSlice]
    decide

/-- Claim C2 is false as it stands: for the 2012-character text
`exChunkText` the chunker splits after the period and `trimStart` drops the
following space, so re-concatenating the chunks (plainly or joined with a
newline, as background.js line 349 does) does not reproduce the input -
one character of content is lost or changed. -/
theorem c2_join_counterexample :
    (chunkSplit exChunkText).flatten ≠ exChunkText ∧
    joinNl (chunkSplit exChunkText) ≠ exChunkText ∧
    (chunkSplit exChunkText).flatten.length = 2011 ∧
    exChunkText.length = 2012 := by
  have hflatlen : (chunkSplit exChunkText).flatten.length = 2011 := by
    rw [chunkSplit_ex]
    simp only [List.flatten_cons, List.flatten_nil, List.append_nil,
      List.length_append, List.length_cons, List.length_nil, List.length_replicate]
  refine ⟨?_, ?_, hflatlen, exChunkText_length⟩
  · intro h
    have hl := congrArg List.length h
    rw [hflatlen, exChunkText_length] at hl
    exact absurd hl (by decide)
  · intro h
    rw [chunkSplit_ex, joinNl_pair, exChunkText_decomp2] at h
    have h2 := List.append_cancel_left h
    injection h2 with h3 h4
    exact absurd h3 (by decide)

/-- Claim C10: the chunk-splitting loop of handleTranslatePdfText
terminates - every iteration on a remainder longer than 2000 characters
removes more than 600 characters (the split index is at least 602 and the
remainder is additionally trimmed), and fuel equal to the input length
already computes the loop fixpoint: any larger fuel gives the same chunks. -/
theorem c10_chunk_loop_terminates :
    (∀ r : List Char, 2000 < r.length → (chunkNext r).length + 600 < r.length) ∧
    (∀ (fuel : Nat) (s : List Char), s.length ≤ fuel →
      chunkSplitF fuel s = chunkSplit s) := by
  refine ⟨?_, chunkSplitF_fuel_irrel⟩
  intro r h
  have := chunkNext_decrease r h
  omega

theorem c10_chunk_loop_terminates_witness :
    (chunkNext exChunkText).length + 600 < exChunkText.length ∧
    chunkSplitF 5000 exChunkText = chunkSplit exChunkText :=
  ⟨c10_chunk_loop_terminates.1 exChunkText (by rw [exChunkText_length]; decide),
   c10_chunk_loop_terminates.2 5000 exChunkText (by rw [exChunkText_length]; decide)⟩

theorem c1_at_most_once_dispatch_witness :
    (rescans [3, 0, 7, 7] freshNode).dispatched ≤ 1 ∧
    processNode 5 ⟨true, 1⟩ = ⟨true, 1⟩ ∧
    (processNode 5 freshNode).lingoProcessed = true := by
  refine ⟨c1_at_most_once_dispatch.1 [3, 0, 7, 7],
    c1_at_most_once_dispatch.2.1 5 ⟨true, 1⟩ rfl,
    (c1_at_most_once_dispatch.2.2 5 freshNode (by decide)).2.1⟩

/-- Claim C3 evaluation: with the detected tag equal to the configured
target, the code makes no translate call, removes the loading bar and shows
the already-in-your-language badge - but the call to the undefined
identifier injectSummarizeButton raises a ReferenceError, so no summarize
affordance appears and an inline error is shown instead. -/
theorem c3_missing_summarize_button :
    translateEmailBodyM false 20 "en" "en" (Except.ok "t") =
      { loadingVisible := false, badgeShown := true, summarizeShown := false,
        translationBlockShown := false, errorShown := some refErrMsg,
        recordStored := false, calls := [BgCall.detect] } ∧
    BgCall.translateHtmlCall ∉ (translateEmailBodyM false 20 "en" "en" (Except.ok "t")).calls := by
  constructor
  · rfl
  · decide

theorem toggle_toggle (s : ToggleUI) (h : consistentUI s = true) :
    toggleTranslation (toggleTranslation s) = s := by
  obtain ⟨rec, bp, ed, td, tl⟩ := s
  cases rec with
  | none => rfl
  | some d =>
    obtain ⟨oh, th, dl, tg, st⟩ := d
    cases bp with
    | false => rfl
    | true =>
      cases st with
      | false =>
        simp [consistentUI] at h
        obtain ⟨⟨h1, h2⟩, h3⟩ := h
        subst h1; subst h2; subst h3
        rfl
      | true =>
        simp [consistentUI] at h
        obtain ⟨⟨h1, h2⟩, h3⟩ := h
        subst h1; subst h2; subst h3
        rfl

theorem toggle_payload (s : ToggleUI) : recPayload (toggleTranslation s) = recPayload s := by
  obtain ⟨rec, bp, ed, td, tl⟩ := s
  cases rec with
  | none => rfl
  | some d =>
    obtain ⟨oh, th, dl, tg, st⟩ := d
    cases bp with
    | false => rfl
    | true => cases st <;> rfl

/-- Claim C4: from any state whose display fields agree with the stored
boolean (as they do right after injection), an even number of toggles is
the identity, and a toggle never changes the stored original or translated
payloads of the Translation Record. -/
theorem c4_toggle_even_identity (s : ToggleUI) (k : Nat) (h : consistentUI s = true) :
    toggleTranslation^[2 * k] s = s ∧
    recPayload (toggleTranslation s) = recPayload s := by
  refine ⟨?_, toggle_payload s⟩
  induction k with
  | zero => rfl
  | succ n ih =>
    rw [show 2 * (n + 1) = 2 * n + 2 from by omega, Function.iterate_add_apply]
    have h2 : toggleTranslation^[2] s = s := by
      show toggleTranslation (toggleTranslation s) = s
      exact toggle_toggle s h
    rw [h2, ih]

theorem c4_toggle_even_identity_witness :
    toggleTranslation^[4] (postInjectUI ⟨"o", "t", "fr", "en", true⟩) =
      postInjectUI ⟨"o", "t", "fr", "en", true⟩ ∧
    recPayload (toggleTranslation (postInjectUI ⟨"o", "t", "fr", "en", true⟩)) =
      recPayload (postInjectUI ⟨"o", "t", "fr", "en", true⟩) :=
  c4_toggle_even_identity (postInjectUI ⟨"o", "t", "fr", "en", true⟩) 2 (by decide)

theorem speechStep_queue_le (e : SpeechEv) (s : SpeechState) (h : s.queue.length ≤ 1) :
    (speechStep e s).queue.length ≤ 1 := by
  cases e with
  | click b len =>
    show (handleReadAloud b len s).queue.length ≤ 1
    unfold handleReadAloud
    split
    · cases ha : s.activeBtn <;> simp [stopReadAloud, ha]
    · split
      · exact h
      · rename_i hq _
        rw [not_not.mp hq]
        simp
  | stopClick =>
    show (stopReadAloud s).queue.length ≤ 1
    unfold stopReadAloud
    cases ha : s.activeBtn <;> simp
  | finished =>
    show (utterFinished s).queue.length ≤ 1
    unfold utterFinished
    split
    · exact h
    · rename_i b rest hq
      rw [hq] at h
      simp only [List.length_cons] at h
      show rest.length ≤ 1
      omega

theorem speechRun_aux (evs : List SpeechEv) :
    ∀ s : SpeechState, s.queue.length ≤ 1 →
      (evs.foldl (fun t e => speechStep e t) s).queue.length ≤ 1 := by
  induction evs with
  | nil => intro s h; exact h
  | cons e t ih => intro s h; exact ih (speechStep e s) (speechStep_queue_le e s h)

/-- Claim C5 (amended): at most one utterance is ever active across any
event sequence; and clicking read-aloud on button b while anything is
speaking cancels the active utterance and resets the active control to
idle, leaving no active utterance at all - the new node never starts. -/
theorem c5_single_speech_amended :
    (∀ evs : List SpeechEv, (speechRun evs).queue.length ≤ 1) ∧
    (∀ (b len : Nat) (s : SpeechState), s.queue ≠ [] →
      (handleReadAloud b len s).queue = [] ∧
      (handleReadAloud b len s).activeBtn = none ∧
      ∀ a, s.activeBtn = some a →
        (handleReadAloud b len s).speakingCls = s.speakingCls.erase a) := by
  constructor
  · intro evs
    exact speechRun_aux evs initSpeech (by decide)
  · intro b len s hq
    have hra : handleReadAloud b len s = stopReadAloud s := by
      unfold handleReadAloud
      rw [if_pos hq]
    rw [hra]
    unfold stopReadAloud
    cases ha : s.activeBtn with
    | none =>
      refine ⟨rfl, rfl, fun a haa => ?_⟩
      cases haa
    | some a0 =>
      refine ⟨rfl, rfl, fun a haa => ?_⟩
      injection haa with he
      show s.speakingCls.erase a0 = s.speakingCls.erase a
      rw [he]

theorem c5_single_speech_amended_witness :
    (speechRun [SpeechEv.click 0 9, SpeechEv.click 1 9]).queue.length ≤ 1 ∧
    (handleReadAloud 1 100 speakingStateA).queue = [] ∧
    (handleReadAloud 1 100 speakingStateA).speakingCls =
      speakingStateA.speakingCls.erase 0 :=
  ⟨c5_single_speech_amended.1 [SpeechEv.click 0 9, SpeechEv.click 1 9],
   (c5_single_speech_amended.2 1 100 speakingStateA (by decide)).1,
   (c5_single_speech_amended.2 1 100 speakingStateA (by decide)).2.2 0 rfl⟩

/-- Claim C5 is false as stated: clicking read-aloud on button 1 while
button 0 is speaking leaves no active utterance at all - the click is
treated purely as a stop request and the new utterance never starts, so
afterwards it is not the case that exactly button 1 speaks. -/
theorem c5_b_while_a_counterexample :
    (handleReadAloud 1 100 speakingStateA).queue = [] ∧
    (handleReadAloud 1 100 speakingStateA).queue ≠ [1] ∧
    (handleReadAloud 1 100 speakingStateA).activeBtn ≠ some 1 := by
  decide

/-- Claim C6 (amended): the first Summarize call stores the record, makes
one remote call and inserts a visible panel; a second call on the same node
makes no remote call, leaves the Summary Record and the panel content
unchanged, and only toggles the panel hidden - it neither overwrites nor
duplicates. -/
theorem c6_second_call_amended (text S1 S2 : String) (g : Nat) (e : Option String)
    (hlen : 10 ≤ text.length) :
    handleSummarizeM text (Except.ok S1) ⟨none, [], g, e⟩ =
      ⟨some S1, [(S1, false)], g + 1, e⟩ ∧
    handleSummarizeM text (Except.ok S2)
        (handleSummarizeM text (Except.ok S1) ⟨none, [], g, e⟩) =
      ⟨some S1, [(S1, true)], g + 1, e⟩ := by
  have h1 : handleSummarizeM text (Except.ok S1) ⟨none, [], g, e⟩ =
      ⟨some S1, [(S1, false)], g + 1, e⟩ := by
    show (if text.length < 10 then (⟨none, [], g, e⟩ : SummaryState)
          else ⟨some S1, [(S1, false)], g + 1, e⟩) =
        ⟨some S1, [(S1, false)], g + 1, e⟩
    rw [if_neg (Nat.not_lt.mpr hlen)]
  refine ⟨h1, ?_⟩
  rw [h1]
  rfl

theorem c6_second_call_amended_witness :
    handleSummarizeM "0123456789" (Except.ok "A") ⟨none, [], 0, none⟩ =
      ⟨some "A", [("A", false)], 1, none⟩ ∧
    handleSummarizeM "0123456789" (Except.ok "B")
        (handleSummarizeM "0123456789" (Except.ok "A") ⟨none, [], 0, none⟩) =
      ⟨some "A", [("A", true)], 1, none⟩ :=
  c6_second_call_amended "0123456789" "A" "B" 0 none (by decide)

/-- Claim C6 is false as stated: the second Summarize call does not
overwrite the Summary Record with the new summary and does not replace the
panel content - it makes no remote call and merely hides the existing
panel. -/
theorem c6_second_call_counterexample :
    (handleSummarizeM "0123456789" (Except.ok "B")
        (handleSummarizeM "0123456789" (Except.ok "A") ⟨none, [], 0, none⟩)).record ≠
      some "B" ∧
    (handleSummarizeM "0123456789" (Except.ok "B")
        (handleSummarizeM "0123456789" (Except.ok "A") ⟨none, [], 0, none⟩)).geminiCalls = 1 ∧
    (handleSummarizeM "0123456789" (Except.ok "B")
        (handleSummarizeM "0123456789" (Except.ok "A") ⟨none, [], 0, none⟩)).panels =
      [("A", true)] := by
  decide

/-- Claim C7: a translate, translate-markup or detect request with the
Lingo key missing, and a summarize request with the Gemini key missing,
fail immediately with the configuration error and issue no remote call;
and the summarize guard reads the distinct Gemini credential - with it
present the remote call is made regardless of the Lingo key. -/
theorem c7_missing_credential (st : SettingsB) (req : String)
    (remote : Except String String) :
    (st.apiKey = "" →
      handleTranslateM st req remote = (Except.error lingoKeyMsg, []) ∧
      handleTranslateHtmlM st req remote = (Except.error lingoKeyMsg, []) ∧
      handleDetectLanguageM st remote = (Except.error lingoKeyMsg, [])) ∧
    (st.geminiApiKey = "" →
      handleSummarizeBg st remote = (Except.error geminiKeyMsg, [])) ∧
    (st.geminiApiKey ≠ "" →
      (handleSummarizeBg st remote).2 = [RemoteCall.geminiGenerate]) ∧
    (st.apiKey ≠ "" →
      (handleTranslateM st req remote).2 = [RemoteCall.lingoI18n]) := by
  refine ⟨?_, ?_, ?_, ?_⟩
  · intro h
    refine ⟨?_, ?_, ?_⟩ <;>
      simp [handleTranslateM, handleTranslateHtmlM, handleDetectLanguageM, h]
  · intro h
    simp [handleSummarizeBg, h]
  · intro h
    unfold handleSummarizeBg
    rw [if_neg h]
    cases remote <;> rfl
  · intro h
    unfold handleTranslateM
    rw [if_neg h]
    cases remote <;> rfl

theorem c7_missing_credential_witness :
    handleTranslateM ⟨"", "", "en", true⟩ "fr" (Except.ok "x") =
      (Except.error lingoKeyMsg, []) ∧
    handleSummarizeBg ⟨"", "", "en", true⟩ (Except.ok "s") =
      (Except.error geminiKeyMsg, []) ∧
    (handleSummarizeBg ⟨"", "g", "en", true⟩ (Except.ok "s")).2 =
      [RemoteCall.geminiGenerate] ∧
    (handleTranslateM ⟨"k", "", "en", true⟩ "fr" (Except.ok "x")).2 =
      [RemoteCall.lingoI18n] :=
  ⟨((c7_missing_credential ⟨"", "", "en", true⟩ "fr" (Except.ok "x")).1 rfl).1,
   (c7_missing_credential ⟨"", "", "en", true⟩ "fr" (Except.ok "s")).2.1 rfl,
   (c7_missing_credential ⟨"", "g", "en", true⟩ "fr" (Except.ok "s")).2.2.1 (by decide),
   (c7_missing_credential ⟨"k", "", "en", true⟩ "fr" (Except.ok "x")).2.2.2 (by decide)⟩

/-- Claim C8: when the extracted PDF text trims to fewer than 5 characters
(for example 3 characters), the attachment workflow ends with the
descriptive scanned-or-image-only content error, no modal is shown and no
translation request is made. -/
theorem c8_short_pdf_error (u : String) (t : List Char) (res : Except String String)
    (h : (jsTrim t).length < 5) :
    handlePdfTranslateM (some u) none t res =
      { errorShown := some pdfShortMsg, modalShown := false,
        translateRequested := false } := by
  show (if t = [] ∨ (jsTrim t).length < 5 then
          ({ errorShown := some pdfShortMsg, modalShown := false,
             translateRequested := false } : PdfOutcome)
        else
          match res with
          | Except.error e => { errorShown := some e, modalShown := false,
                                translateRequested := true }
          | Except.ok _ => { errorShown := none, modalShown := true,
                             translateRequested := true }) =
      { errorShown := some pdfShortMsg, modalShown := false,
        translateRequested := false }
  rw [if_pos (Or.inr h)]

theorem c8_short_pdf_error_witness :
    handlePdfTranslateM (some "u") none ['a', 'b', 'c'] (Except.ok "x") =
      { errorShown := some pdfShortMsg, modalShown := false,
        translateRequested := false } :=
  c8_short_pdf_error "u" ['a', 'b', 'c'] (Except.ok "x") (by decide)

theorem serializeTextChar_no_markup (c : Char) :
    ∀ ch ∈ serializeTextChar c, ch ≠ '<' ∧ ch ≠ '>' := by
  unfold serializeTextChar
  split
  · exact fun ch hch => (by decide : ∀ x ∈ "&amp;".data, x ≠ '<' ∧ x ≠ '>') ch hch
  split
  · exact fun ch hch => (by decide : ∀ x ∈ "&nbsp;".data, x ≠ '<' ∧ x ≠ '>') ch hch
  split
  · exact fun ch hch => (by decide : ∀ x ∈ "&lt;".data, x ≠ '<' ∧ x ≠ '>') ch hch
  split
  · exact fun ch hch => (by decide : ∀ x ∈ "&gt;".data, x ≠ '<' ∧ x ≠ '>') ch hch
  · rename_i h1 h2 h3 h4
    intro ch hch
    have hc : ch = c := by simpa using hch
    subst hc
    exact ⟨h3, h4⟩

theorem serializeTextChar_eq_spec (c : Char) (h : ¬ c = nbsp) :
    serializeTextChar c = specEscapeChar c := by
  unfold serializeTextChar specEscapeChar
  by_cases h1 : c = '&'
  · rw [if_pos h1, if_pos h1]
  · rw [if_neg h1, if_neg h1, if_neg h]

/-- Claim C9 (amended): on every string free of U+00A0 the DOM-based
escapeHtml coincides with the standard three-entity escaping, and on every
string whatsoever its output contains no raw less-than or greater-than
character, so error messages rendered through it contribute no raw
markup. -/
theorem c9_escape_amended (s : List Char) :
    ((∀ c ∈ s, c ≠ nbsp) → escapeHtml s = specEscapeHtml s) ∧
    (∀ ch ∈ escapeHtml s, ch ≠ '<' ∧ ch ≠ '>') := by
  constructor
  · intro h
    unfold escapeHtml specEscapeHtml
    congr 1
    exact List.map_congr_left fun c hc => serializeTextChar_eq_spec c (h c hc)
  · intro ch hch
    unfold escapeHtml at hch
    rw [List.mem_flatten] at hch
    obtain ⟨l, hl, hchl⟩ := hch
    rw [List.mem_map] at hl
    obtain ⟨c, _, rfl⟩ := hl
    exact serializeTextChar_no_markup c ch hchl

theorem c9_escape_amended_witness :
    escapeHtml "a<b&".data = specEscapeHtml "a<b&".data :=
  (c9_escape_amended "a<b&".data).1 (by decide)

/-- Claim C9 is false as stated: the DOM serialization behind escapeHtml
also rewrites the no-break space U+00A0 to its named entity, so on that
character escapeHtml differs from the plain three-entity escaping. -/
theorem c9_nbsp_counterexample :
    escapeHtml [nbsp] ≠ specEscapeHtml [nbsp] ∧ escapeHtml [nbsp] = "&nbsp;".data := by
  decide

end LingoMail
